import Mathlib

/-!
Verification of the shacl-form custom element (src/unnamed/part_000) and its
collaborators, as a shallow embedding in Lean 4.

RDF terms are modelled as an inductive type, quads as a structure, and a
dataset/store as a list of quads whose set semantics is expressed through
membership.  The fragments of `ShaclForm.init` and the accessors
(`subject`, `shapeUri`, `contentLanguages`, `activeContentLanguages`,
`validate`) are translated directly from the source; JS attribute lookups
become `Option String` parameters (a missing attribute is `none`) and
thrown exceptions become `Except String`.
-/

namespace ShaclForm

/-- An RDF term: IRI, blank node, or literal (value, language tag, datatype).
A missing language tag is the empty string, matching the JS model where
`literal.language` is `''` for plain literals. -/
inductive Term where
  | namedNode (value : String)
  | blankNode (value : String)
  | literal (value : String) (language : String) (datatype : String)
deriving DecidableEq, Repr

/-- The `.value` projection of an RDF/JS term. -/
def Term.value : Term → String
  | .namedNode v => v
  | .blankNode v => v
  | .literal v _ _ => v

/-- A subject-predicate-object-graph statement. -/
structure Quad where
  subject : Term
  predicate : Term
  object : Term
  graph : Term
deriving DecidableEq, Repr

/-- Datasets and stores are de-duplicated quad sets; we model them as lists
and speak about them through membership. -/
abbrev Dataset := List Quad

/-- Set equality of two datasets (order- and multiplicity-independent). -/
def sameQuads (d₁ d₂ : Dataset) : Prop :=
  (∀ q ∈ d₁, q ∈ d₂) ∧ (∀ q ∈ d₂, q ∈ d₁)

instance (d₁ d₂ : Dataset) : Decidable (sameQuads d₁ d₂) := by
  unfold sameQuads; infer_instance

/-- `rdf('type')` from helpers/namespaces. -/
def rdfType : Term := .namedNode "http://www.w3.org/1999/02/22-rdf-syntax-ns#type"

/-- `sh('NodeShape')` from helpers/namespaces. -/
def shNodeShape : Term := .namedNode "http://www.w3.org/ns/shacl#NodeShape"

/-- `sh('property')`. -/
def shProperty : Term := .namedNode "http://www.w3.org/ns/shacl#property"

/-- `sh('node')`. -/
def shNode : Term := .namedNode "http://www.w3.org/ns/shacl#node"

/-- `sh('path')`. -/
def shPath : Term := .namedNode "http://www.w3.org/ns/shacl#path"

/-- `sh('order')`. -/
def shOrder : Term := .namedNode "http://www.w3.org/ns/shacl#order"

/-- JS truthiness of an optional attribute string: `undefined` and the empty
string are falsy. -/
def truthy : Option String → Bool
  | none => false
  | some s => s ≠ ""

/-- Source, init lines 56-59: collect the subjects of all quads matching
`(null, rdf:type, sh:NodeShape)` in the shapes dataset. -/
def shapeUrisOf (shaclDataset : Dataset) : List Term :=
  (shaclDataset.filter
    (fun q => decide (q.predicate = rdfType ∧ q.object = shNodeShape))).map Quad.subject

/-- Source, init lines 46-64.  `init` throws when no truthy `shacl-url`
attribute is present (line 50); otherwise the root SHACL IRI starts as the
default `factory.namedNode('')`, is set to the single shape when exactly one
`sh:NodeShape` is declared (line 61), and is overridden by a truthy
`shacl-iri` attribute (line 64).  No other exception is raised on this path. -/
def initRootShaclIri (shaclUrl : Option String) (shaclDataset : Dataset)
    (shaclIri : Option String) : Except String Term :=
  if truthy shaclUrl = false then
    .error "A shacl-url property is required. It should link to a SHACL turtle file"
  else
    let shapeUris := shapeUrisOf shaclDataset
    let root := if shapeUris.length = 1 then shapeUris.headD (Term.namedNode "")
                else Term.namedNode ""
    if truthy shaclIri then .ok (Term.namedNode (shaclIri.getD ""))
    else .ok root

/-- Helper for `splitComma`: walk the characters, cutting at every comma.
The accumulator holds the current segment reversed. -/
def splitCommaCore : List Char → List Char → List String
  | [], cur => [String.mk cur.reverse]
  | c :: rest, cur =>
    if c = ',' then String.mk cur.reverse :: splitCommaCore rest []
    else splitCommaCore rest (c :: cur)

/-- The JS `string.split(',')`: always returns at least one segment, and the
empty string splits to `[""]`. -/
def splitComma (s : String) : List String := splitCommaCore s.toList []

/-- Source, line 141: the `contentLanguages` getter splits the
`content-languages` attribute on commas; a missing attribute yields `[]`. -/
def contentLanguages (contentAttr : Option String) : List String :=
  match contentAttr with
  | some s => splitComma s
  | none => []

/-- Source, line 145: the active list resolved from the
`active-content-languages` attribute before any check is applied. -/
def resolvedActive (activeAttr : Option String) : List String :=
  match activeAttr with
  | some s => splitComma s
  | none => []

/-- The message of the error thrown at source line 146. -/
def activeLanguageError : String :=
  "An active language was set that is not included in the available languages."

/-- Source, lines 144-149: the `activeContentLanguages` getter.  It throws
when some active tag is not contained in `contentLanguages`; with an empty
active list it returns the full `contentLanguages`; otherwise the active
list itself. -/
def activeContentLanguages (activeAttr contentAttr : Option String) :
    Except String (List String) :=
  let active := resolvedActive activeAttr
  let content := contentLanguages contentAttr
  if ¬ (active.all (fun l => content.contains l)) then
    .error activeLanguageError
  else if active.length = 0 then .ok content
  else .ok active

/-- Source, lines 130-138: the `shapeUri` getter.  The guard is the JS
truthiness test `if (!givenShapeUri)`, so both an absent and a present but
empty `shape-uri` attribute return `shapeUris[0]` (which is `undefined`,
i.e. `none`, on an empty list); with a truthy attribute it searches the
declared shapes by `.value` and throws when none matches. -/
def shapeUri (givenShapeUri : Option String) (shapeUris : List Term) :
    Except String (Option Term) :=
  if truthy givenShapeUri = false then .ok shapeUris.head?
  else
    match shapeUris.find? (fun t => t.value = givenShapeUri.getD "") with
    | some t => .ok (some t)
    | none => .error "Could not find the shape uri"

/-- Source, init lines 86-95, inner loop: fold over the store accumulating, in
insertion order and without duplicates, every truthy (non-empty) language tag
of a literal object.  This models the JS `Set` built by the loop. -/
def scanCL (acc : List String) : Dataset → List String
  | [] => acc
  | q :: rest =>
    match q.object with
    | .literal _ lang _ =>
      if lang ≠ "" ∧ lang ∉ acc then scanCL (acc ++ [lang]) rest
      else scanCL acc rest
    | _ => scanCL acc rest

/-- Source, init lines 86-95: the language tags observed by scanning every
quad of the store (the loop is `for (const quad of this.#store)`, with no
filter on the quad's subject). -/
def scanContentLanguages (store : Dataset) : List String := scanCL [] store

/-- Source, init lines 86-95: when no `content-languages` attribute is
present, init sets it to the comma-joined scanned tags; an existing attribute
is left untouched. -/
def initContentLanguagesAttr (contentAttr : Option String) (store : Dataset) :
    String :=
  match contentAttr with
  | some s => s
  | none => String.intercalate "," (scanContentLanguages store)

/-- Spec-side reading of claim C6: the language tags observed on literal
objects of the current subject's statements only. -/
def subjectContentLanguages (store : Dataset) (subject : Term) : List String :=
  scanCL [] (store.filter (fun q => decide (q.subject = subject)))

/-- Source, init lines 80-81: split the `ui-language-priorities` attribute on
commas (default `['*']`), then push `'*'`. -/
def uiLanguagePriorities (attr : Option String) : List String :=
  (match attr with
   | some s => splitComma s
   | none => ["*"]) ++ ["*"]

/-- Rename the subject of one quad from `oldT` to `newT`; quads with another
subject are untouched. -/
def renameQuad (oldT newT : Term) (q : Quad) : Quad :=
  if q.subject = oldT then Quad.mk newT q.predicate q.object q.graph else q

/-- Modelled from the spec: `swapSubject` is imported in src/unnamed/part_000
from helpers/swapSubject, which is not included under src/.  Per the spec, a
subject change "triggers a graph-wide rewrite of statements from old subject
to new, preserving all other triples", over a store that is a de-duplicated
quad set; so every quad whose subject is the old term is rewritten to the new
term and the result is de-duplicated. -/
def swapSubject (store : Dataset) (oldT newT : Term) : Dataset :=
  (store.map (renameQuad oldT newT)).dedup

/-- The host state the subject accessors and `validate` touch: the private
`#store` and `#subject` fields. -/
structure FormState where
  store : Dataset
  subject : Term
deriving DecidableEq, Repr

/-- Source, lines 122-124: the `subject` setter only calls
`swapSubject(this.#store, this.subject, newValue)`; it never assigns
`this.#subject`. -/
def setSubject (s : FormState) (newValue : Term) : FormState :=
  FormState.mk (swapSubject s.store s.subject newValue) s.subject

/-- Source, lines 98-100: the `subject` getter returns `this.#subject`. -/
def getSubject (s : FormState) : Term := s.subject

/-- The argument object passed to the external validator capability. -/
structure ValidateArgs where
  dataset : Dataset
  terms : List Term
deriving DecidableEq, Repr

/-- Source, lines 126-128: `validate` calls
`this.#validator.validate({ dataset: this.#store, terms: [this.subject] })`. -/
def validate (s : FormState) : ValidateArgs :=
  ValidateArgs.mk s.store [getSubject s]

/-- Severity of one validation result. -/
inductive Severity where
  | violation
  | warning
  | info
deriving DecidableEq, Repr

/-- One result record of a validation report: focus node, result path,
severity, message text. -/
structure ReportEntry where
  focusNode : Term
  resultPath : Term
  severity : Severity
  message : String
deriving DecidableEq, Repr

/-- A validation report is a sequence of results. -/
abbrev Report := List ReportEntry

/-- The configuration object threaded into the tree compiler (widget
registry and grouping rules); opaque to tree construction. -/
structure Options where
  groups : List String
deriving DecidableEq, Repr

/-- One node of the compiled shape tree: shape term, messages partitioned by
severity into errors/warnings/infos, and child items. -/
inductive TreeItem where
  | mk (shape : Term) (errors warnings infos : List String)
      (children : List TreeItem)

/-- Messages of the given severity, in report order. -/
def messagesOf (sev : Severity) (entries : List ReportEntry) : List String :=
  (entries.filter (fun e => decide (e.severity = sev))).map ReportEntry.message

/-- The objects of `(shape, sh:property, ·)` quads: the property shapes of a
node shape, in document order. -/
def propertiesOf (ds : Dataset) (shape : Term) : List Term :=
  (ds.filter (fun q => decide (q.subject = shape ∧ q.predicate = shProperty))).map Quad.object

/-- The objects of `(prop, sh:node, ·)` quads: nested node shapes. -/
def nodeShapesOf (ds : Dataset) (prop : Term) : List Term :=
  (ds.filter (fun q => decide (q.subject = prop ∧ q.predicate = shNode))).map Quad.object

/-- The object of the first `(prop, sh:path, ·)` quad, when present. -/
def pathOf (ds : Dataset) (prop : Term) : Option Term :=
  ((ds.filter (fun q => decide (q.subject = prop ∧ q.predicate = shPath))).map Quad.object).head?

/-- The `sh:order` sort key of a property shape: the numeric value of the
first `(prop, sh:order, ·)` literal, absent order sorting last. -/
def orderKey (ds : Dataset) (prop : Term) : Nat :=
  match ((ds.filter
      (fun q => decide (q.subject = prop ∧ q.predicate = shOrder))).map Quad.object).head? with
  | some (.literal v _ _) => (v.toNat?).getD 1000000
  | _ => 1000000

/-- Stable insertion of a keyed element into a key-sorted list: an element
moves before another only when its key is strictly smaller, so equal keys
keep document order. -/
def insertByKey (x : Nat × Term) : List (Nat × Term) → List (Nat × Term)
  | [] => [x]
  | y :: rest => if y.1 ≤ x.1 then y :: insertByKey x rest else x :: y :: rest

/-- Stable sort of the property shapes by their `sh:order` key. -/
def sortByOrder (ds : Dataset) (props : List Term) : List Term :=
  ((props.map (fun p => (orderKey ds p, p))).foldl
    (fun acc x => insertByKey x acc) []).map Prod.snd

/-- Modelled from the spec: the shape tree compiler `shaclTree` is imported
in src/unnamed/part_000 from ./shaclTree, which is not included under src/.
Per the spec (section 4.1), compilation starts at the root shape and, for
each `sh:property` constraint, recursively resolves the property's node shape
via `sh:node` composition, producing one child TreeItem per property;
children are sorted by the `order` facet when present, else by document order
(stable); each TreeItem absorbs the report messages whose result path matches
its `sh:path`, partitioned by severity; recursion is bounded by fuel so that
cyclic shape graphs terminate.  The shapes dataset is threaded through the
computation and returned, so that absence of dataset mutation is an explicit
theorem rather than a modelling assumption. -/
def compileNode (report : Report) : Nat → Dataset → Term → TreeItem × Dataset
  | 0, ds, shape => (TreeItem.mk shape [] [] [] [], ds)
  | Nat.succ f, ds, shape =>
    let props := sortByOrder ds (propertiesOf ds shape)
    let folded := props.foldl
      (fun (acc : List TreeItem × Dataset) p =>
        let inner := (nodeShapesOf acc.2 p).foldl
          (fun (acc2 : List TreeItem × Dataset) ns =>
            let r := compileNode report f acc2.2 ns
            (acc2.1 ++ [r.1], r.2)) ([], acc.2)
        let matching := report.filter
          (fun e => decide (e.resultPath = (pathOf acc.2 p).getD p))
        (acc.1 ++ [TreeItem.mk p (messagesOf Severity.violation matching)
            (messagesOf Severity.warning matching)
            (messagesOf Severity.info matching) inner.1], inner.2))
      ([], ds)
    (TreeItem.mk shape [] [] [] folded.1, folded.2)

/-- Modelled from the spec: `shaclTree(report, shaclDataset, options,
rootShaclIri)` as called at src/unnamed/part_000 line 104; the fuel bound is
one more than the dataset size, enough for any acyclic shape chain. -/
def shaclTree (report : Report) (shaclDataset : Dataset) (_options : Options)
    (rootShaclIri : Term) : TreeItem × Dataset :=
  compileNode report (shaclDataset.length + 1) shaclDataset rootShaclIri

/-! Concrete inputs used by counterexamples and witnesses. -/

/-- A shapes dataset declaring two `sh:NodeShape`s. -/
def twoShapesDs : Dataset :=
  [Quad.mk (Term.namedNode "urn:s1") rdfType shNodeShape (Term.namedNode ""),
   Quad.mk (Term.namedNode "urn:s2") rdfType shNodeShape (Term.namedNode "")]

/-- A store in which the rename target `urn:b` already occurs as a subject. -/
def clashStore : Dataset :=
  [Quad.mk (Term.namedNode "urn:a") (Term.namedNode "urn:p")
     (Term.namedNode "urn:o1") (Term.namedNode ""),
   Quad.mk (Term.namedNode "urn:b") (Term.namedNode "urn:p")
     (Term.namedNode "urn:o2") (Term.namedNode "")]

/-- A store with a single statement about `urn:a`. -/
def plainStore : Dataset :=
  [Quad.mk (Term.namedNode "urn:a") (Term.namedNode "urn:p")
     (Term.namedNode "urn:o1") (Term.namedNode "")]

/-- A store whose only language-tagged literal sits on a statement about
`urn:t`, a subject different from the current subject `urn:s`. -/
def otherSubjectStore : Dataset :=
  [Quad.mk (Term.namedNode "urn:t") (Term.namedNode "urn:p")
     (Term.literal "x" "de" "") (Term.namedNode "")]

/-! Theorems. -/

/-- Claim C1, counterexample: with two declared node shapes and no
`shacl-iri` attribute, initialization does not raise; it proceeds, leaving
the root SHACL IRI at the default empty named node. -/
theorem initRootShaclIri_multiple_no_error :
    initRootShaclIri (some "shapes.ttl") twoShapesDs none =
      Except.ok (Term.namedNode "") := by rfl

/-- Claim C1, amended: given a truthy shacl-url, a sole declared
`sh:NodeShape` is inferred as the root shape; a truthy `shacl-iri` attribute
overrides; with any other number of declared shapes and no `shacl-iri`, init
succeeds with the default empty named node as root instead of raising. -/
theorem initRootShaclIri_spec (url : Option String) (ds : Dataset)
    (h : truthy url = true) :
    (∀ t, shapeUrisOf ds = [t] → initRootShaclIri url ds none = .ok t) ∧
    ((shapeUrisOf ds).length ≠ 1 →
      initRootShaclIri url ds none = .ok (Term.namedNode "")) ∧
    (∀ s, truthy (some s) = true →
      initRootShaclIri url ds (some s) = .ok (Term.namedNode s)) := by
  refine ⟨?_, ?_, ?_⟩
  · intro t ht
    unfold initRootShaclIri
    rw [h]
    simp [truthy, ht]
  · intro hlen
    unfold initRootShaclIri
    rw [h]
    simp [truthy, hlen]
  · intro s hs
    unfold initRootShaclIri
    rw [h, hs]
    simp

/-- Claim C1 witness: the amended theorem applied to the two-shape dataset. -/
theorem initRootShaclIri_spec_witness :
    initRootShaclIri (some "shapes.ttl") twoShapesDs none =
      .ok (Term.namedNode "") :=
  (initRootShaclIri_spec (some "shapes.ttl") twoShapesDs (by decide)).2.1 (by decide)

/-- Claim C2: reading `activeContentLanguages` raises the configuration
error exactly when some resolved active tag is not a member of
`contentLanguages`; when every active tag is a member, no error is raised. -/
theorem activeContentLanguages_failfast (activeAttr contentAttr : Option String) :
    (activeContentLanguages activeAttr contentAttr = .error activeLanguageError ↔
      ∃ t ∈ resolvedActive activeAttr, t ∉ contentLanguages contentAttr) ∧
    ((∀ t ∈ resolvedActive activeAttr, t ∈ contentLanguages contentAttr) →
      ∃ r, activeContentLanguages activeAttr contentAttr = .ok r) := by
  have hiff : (resolvedActive activeAttr).all
      (fun l => (contentLanguages contentAttr).contains l) = true ↔
      ∀ t ∈ resolvedActive activeAttr, t ∈ contentLanguages contentAttr := by
    simp only [List.all_eq_true]
    exact ⟨fun hall t ht => List.elem_iff.mp (hall t ht),
           fun hall t ht => List.elem_iff.mpr (hall t ht)⟩
  by_cases hall : (resolvedActive activeAttr).all
      (fun l => (contentLanguages contentAttr).contains l) = true
  · have hmem := hiff.mp hall
    have hok : ∃ r, activeContentLanguages activeAttr contentAttr = Except.ok r := by
      simp only [activeContentLanguages, hall]
      by_cases hemp : (resolvedActive activeAttr).length = 0 <;> simp [hemp]
    refine ⟨⟨fun herr => ?_, fun hex => ?_⟩, fun _ => hok⟩
    · rcases hok with ⟨r, hr⟩
      rw [hr] at herr
      exact Except.noConfusion herr
    · rcases hex with ⟨t, ht, hnot⟩
      exact absurd (hmem t ht) hnot
  · have hnot : ¬ ∀ t ∈ resolvedActive activeAttr, t ∈ contentLanguages contentAttr :=
      fun hf => hall (hiff.mpr hf)
    have hex : ∃ t ∈ resolvedActive activeAttr, t ∉ contentLanguages contentAttr := by
      push_neg at hnot
      exact hnot
    have herr : activeContentLanguages activeAttr contentAttr =
        .error activeLanguageError := by
      simp only [activeContentLanguages]
      rw [if_pos hall]
    exact ⟨⟨fun _ => hex, fun _ => herr⟩, fun hf => absurd hf hnot⟩

/-- Claim C2 witness: the subset case raises no error. -/
theorem activeContentLanguages_failfast_witness :
    ∃ r, activeContentLanguages (some "en") (some "en,de") = .ok r :=
  (activeContentLanguages_failfast (some "en") (some "en,de")).2 (by decide)

/-- Claim C5: when a truthy `shape-uri` attribute is given but matches no
declared shape by IRI value, the getter throws; when none is requested — the
attribute is absent, or present but empty and hence falsy — the first
declared shape is returned. -/
theorem shapeUri_spec (v : String) (us : List Term) :
    ((v ≠ "" → (∀ t ∈ us, Term.value t ≠ v) →
      shapeUri (some v) us = .error "Could not find the shape uri") ∧
    shapeUri none us = .ok us.head?) ∧
    shapeUri (some "") us = .ok us.head? := by
  refine ⟨⟨?_, rfl⟩, ?_⟩
  · intro hv hnone
    have htr : truthy (some v) = true := by
      simp [truthy, hv]
    have hfind : us.find? (fun t => t.value = v) = none := by
      rw [List.find?_eq_none]
      intro t ht
      simpa using hnone t ht
    unfold shapeUri
    rw [htr]
    simp [hfind]
  · unfold shapeUri
    simp [truthy]

/-- Claim C5 witness: a requested but undeclared IRI throws, an absent
request returns the first declared shape. -/
theorem shapeUri_spec_witness :
    shapeUri (some "urn:y") [Term.namedNode "urn:x"] =
      .error "Could not find the shape uri" ∧
    shapeUri none [Term.namedNode "urn:x"] = .ok (some (Term.namedNode "urn:x")) :=
  ⟨(shapeUri_spec "urn:y" [Term.namedNode "urn:x"]).1.1 (by decide) (by decide),
   (shapeUri_spec "urn:y" [Term.namedNode "urn:x"]).1.2⟩

/-- Claim C7: for every value of the `ui-language-priorities` attribute,
including the absent default, the effective priority list ends with the
wildcard. -/
theorem uiLanguagePriorities_wildcard_last (attr : Option String) :
    (uiLanguagePriorities attr).getLast? = some "*" := by
  unfold uiLanguagePriorities
  exact List.getLast?_concat _

/-- Claim C8: every validation run passes the external validator exactly the
current store and a singleton focus-term list holding the current subject. -/
theorem validate_args (s : FormState) :
    (validate s).dataset = s.store ∧ (validate s).terms = [getSubject s] ∧
    (validate s).terms.length = 1 ∧ getSubject s ∈ (validate s).terms := by
  refine ⟨rfl, rfl, rfl, ?_⟩
  simp [validate]

/-- Claim C9: the subject setter rewrites the store through `swapSubject`
but never assigns the private subject field, so the getter still returns the
previous subject; in particular it does not return the new term when that
term differs from the old subject. -/
theorem setSubject_frame (s : FormState) (b : Term) :
    getSubject (setSubject s b) = getSubject s ∧
    (setSubject s b).store = swapSubject s.store s.subject b ∧
    (b ≠ getSubject s → getSubject (setSubject s b) ≠ b) := by
  refine ⟨rfl, rfl, ?_⟩
  intro h hc
  exact h (by simpa [getSubject, setSubject] using hc.symm)

/-- Claim C9 witness: after setting the subject to `urn:b` the getter does
not return `urn:b`. -/
theorem setSubject_frame_witness :
    getSubject (setSubject (FormState.mk [] (Term.namedNode "urn:a"))
      (Term.namedNode "urn:b")) ≠ Term.namedNode "urn:b" :=
  (setSubject_frame (FormState.mk [] (Term.namedNode "urn:a"))
    (Term.namedNode "urn:b")).2.2 (by decide)

/-- Claim C10: with no active selection (the resolved active list is empty,
as when the attribute is absent), the getter returns the full
`contentLanguages` without raising. -/
theorem activeContentLanguages_default (activeAttr contentAttr : Option String)
    (h : resolvedActive activeAttr = []) :
    activeContentLanguages activeAttr contentAttr =
      .ok (contentLanguages contentAttr) := by
  simp [activeContentLanguages, h]

/-- Claim C10 witness: an absent attribute yields the full observed set. -/
theorem activeContentLanguages_default_witness :
    activeContentLanguages none (some "en,de") =
      .ok (contentLanguages (some "en,de")) :=
  activeContentLanguages_default none (some "en,de") (by decide)

/-- Membership characterization of the language scan: a tag is collected
exactly when it is already in the accumulator or is the non-empty language of
some literal object in the scanned quads. -/
theorem mem_scanCL (t : String) :
    ∀ (l : Dataset) (acc : List String),
      t ∈ scanCL acc l ↔
        t ∈ acc ∨ ∃ q ∈ l, t ≠ "" ∧ ∃ v dt, q.object = Term.literal v t dt := by
  intro l
  induction l with
  | nil =>
    intro acc
    simp [scanCL]
  | cons q rest ih =>
    intro acc
    obtain ⟨s, p, o, g⟩ := q
    cases o with
    | namedNode v =>
      simp only [scanCL, ih]
      simp only [List.mem_cons]
      constructor
      · rintro (ht | hex)
        · exact Or.inl ht
        · right
          rcases hex with ⟨q', hq', rest'⟩
          exact ⟨q', Or.inr hq', rest'⟩
      · rintro (ht | ⟨q', hq' | hq', hne, v', dt', hv'⟩)
        · exact Or.inl ht
        · exact absurd (hq' ▸ hv') (by simp)
        · exact Or.inr ⟨q', hq', hne, v', dt', hv'⟩
    | blankNode v =>
      simp only [scanCL, ih]
      simp only [List.mem_cons]
      constructor
      · rintro (ht | hex)
        · exact Or.inl ht
        · right
          rcases hex with ⟨q', hq', rest'⟩
          exact ⟨q', Or.inr hq', rest'⟩
      · rintro (ht | ⟨q', hq' | hq', hne, v', dt', hv'⟩)
        · exact Or.inl ht
        · exact absurd (hq' ▸ hv') (by simp)
        · exact Or.inr ⟨q', hq', hne, v', dt', hv'⟩
    | literal v lang dt =>
      by_cases h : lang ≠ "" ∧ lang ∉ acc
      · have hred : scanCL acc (Quad.mk s p (Term.literal v lang dt) g :: rest) =
            scanCL (acc ++ [lang]) rest := by
          simp only [scanCL]
          rw [if_pos h]
        rw [hred, ih]
        simp only [List.mem_append, List.mem_singleton, List.mem_cons]
        constructor
        · rintro ((ht | ht | hf) | ⟨q', hq', hne, v', dt', hv'⟩)
          · exact Or.inl ht
          · subst ht
            exact Or.inr ⟨_, Or.inl rfl, h.1, v, dt, rfl⟩
          · exact absurd hf (List.not_mem_nil t)
          · exact Or.inr ⟨q', Or.inr hq', hne, v', dt', hv'⟩
        · rintro (ht | ⟨q', hq' | hq', hne, v', dt', hv'⟩)
          · exact Or.inl (Or.inl ht)
          · subst hq'
            have hlt : lang = t := by
              have := hv'
              simp only [Term.literal.injEq] at this
              exact this.2.1
            exact Or.inl (Or.inr (Or.inl hlt.symm))
          · exact Or.inr ⟨q', hq', hne, v', dt', hv'⟩
      · have hred : scanCL acc (Quad.mk s p (Term.literal v lang dt) g :: rest) =
            scanCL acc rest := by
          simp only [scanCL]
          rw [if_neg h]
        rw [hred, ih]
        push_neg at h
        simp only [List.mem_cons]
        constructor
        · rintro (ht | ⟨q', hq', hne, v', dt', hv'⟩)
          · exact Or.inl ht
          · exact Or.inr ⟨q', Or.inr hq', hne, v', dt', hv'⟩
        · rintro (ht | ⟨q', hq' | hq', hne, v', dt', hv'⟩)
          · exact Or.inl ht
          · subst hq'
            have hlt : lang = t := by
              simp only [Term.literal.injEq] at hv'
              exact hv'.2.1
            subst hlt
            exact Or.inl (h (by simpa using hne))
          · exact Or.inr ⟨q', hq', hne, v', dt', hv'⟩

/-- Claim C6, counterexample: with the `content-languages` attribute absent,
init scans every quad of the store, so the tag `de`, which occurs only on a
statement about `urn:t`, is collected even though the current subject is
`urn:s`, whose statements carry no language tags at all. -/
theorem contentLanguages_scan_not_subject_scoped :
    initContentLanguagesAttr none otherSubjectStore = "de" ∧
    "de" ∈ scanContentLanguages otherSubjectStore ∧
    subjectContentLanguages otherSubjectStore (Term.namedNode "urn:s") = [] := by
  exact ⟨by decide, by decide, by decide⟩

/-- Claim C6, amended: unless overridden, the scanned content languages are
exactly the set of non-empty language tags on literal objects across all
statements of the dataset, irrespective of their subject. -/
theorem scanContentLanguages_spec (store : Dataset) (t : String) :
    t ∈ scanContentLanguages store ↔
      t ≠ "" ∧ ∃ q ∈ store, ∃ v dt, q.object = Term.literal v t dt := by
  rw [scanContentLanguages, mem_scanCL]
  constructor
  · rintro (h | ⟨q, hq, hne, v, dt, hv⟩)
    · exact absurd h (List.not_mem_nil t)
    · exact ⟨hne, q, hq, v, dt, hv⟩
  · rintro ⟨hne, q, hq, v, dt, hv⟩
    exact Or.inr ⟨q, hq, hne, v, dt, hv⟩

/-- A quad rename from `a` to `b` followed by the reverse rename restores the
quad, provided the quad's subject is not already `b` (or `a = b`). -/
theorem renameQuad_roundtrip (a b : Term) (q : Quad)
    (h : q.subject ≠ b ∨ a = b) :
    renameQuad b a (renameQuad a b q) = q := by
  obtain ⟨s, p, o, g⟩ := q
  by_cases hs : s = a
  · subst hs
    simp [renameQuad]
  · have hsb : s ≠ b := by
      rcases h with h | h
      · simpa using h
      · rw [← h]
        exact hs
    simp [renameQuad, hs, hsb]

/-- Membership characterization of `swapSubject`: exactly the renamed quads
of the store. -/
theorem mem_swapSubject (store : Dataset) (oldT newT : Term) (q : Quad) :
    q ∈ swapSubject store oldT newT ↔
      ∃ q' ∈ store, renameQuad oldT newT q' = q := by
  simp [swapSubject, List.mem_dedup]

/-- Claim C4, counterexample: over a store in which the rename target
`urn:b` already occurs as a subject, renaming `urn:a` to `urn:b` merges the
two subjects, and renaming back turns the original `urn:b` statement into a
statement about `urn:a`; the original quad set is not restored. -/
theorem swapSubject_roundtrip_fails :
    ¬ sameQuads
        (swapSubject (swapSubject clashStore (Term.namedNode "urn:a")
          (Term.namedNode "urn:b")) (Term.namedNode "urn:b")
          (Term.namedNode "urn:a"))
        clashStore := by decide

/-- Claim C4, amended: when the new subject does not already occur as the
subject of any statement (or equals the old subject), renaming the subject
from A to B and back from B to A restores the dataset to its original quad
set, and the rename rewrites exactly the statements whose subject is the old
term while preserving all other triples. -/
theorem swapSubject_roundtrip (store : Dataset) (a b : Term)
    (h : (∀ q ∈ store, q.subject ≠ b) ∨ a = b) :
    sameQuads (swapSubject (swapSubject store a b) b a) store := by
  have hq : ∀ q ∈ store, q.subject ≠ b ∨ a = b := by
    rcases h with h | h
    · exact fun q hqm => Or.inl (h q hqm)
    · exact fun _ _ => Or.inr h
  constructor
  · intro q hmem
    rcases (mem_swapSubject _ _ _ _).mp hmem with ⟨q₁, hq₁, hren₁⟩
    rcases (mem_swapSubject _ _ _ _).mp hq₁ with ⟨q₀, hq₀, hren₀⟩
    have hrt : renameQuad b a (renameQuad a b q₀) = q := by
      rw [hren₀, hren₁]
    rw [← hrt, renameQuad_roundtrip a b q₀ (hq q₀ hq₀)]
    exact hq₀
  · intro q hmem
    refine (mem_swapSubject _ _ _ _).mpr ⟨renameQuad a b q, ?_, ?_⟩
    · exact (mem_swapSubject _ _ _ _).mpr ⟨q, hmem, rfl⟩
    · exact renameQuad_roundtrip a b q (hq q hmem)

/-- Claim C4 witness: over a store whose only subject is `urn:a`, the rename
to `urn:b` and back restores the original quad set. -/
theorem swapSubject_roundtrip_witness :
    sameQuads
      (swapSubject (swapSubject plainStore (Term.namedNode "urn:a")
        (Term.namedNode "urn:b")) (Term.namedNode "urn:b")
        (Term.namedNode "urn:a"))
      plainStore :=
  swapSubject_roundtrip plainStore (Term.namedNode "urn:a")
    (Term.namedNode "urn:b") (Or.inl (by decide))

/-- A fold whose step leaves the dataset component untouched leaves it
untouched overall. -/
theorem foldl_snd_eq {α β : Type} (g : List α × Dataset → β → List α × Dataset)
    (hg : ∀ acc x, (g acc x).2 = acc.2) :
    ∀ (l : List β) (acc : List α × Dataset), (l.foldl g acc).2 = acc.2 := by
  intro l
  induction l with
  | nil => intro acc; rfl
  | cons x rest ih =>
    intro acc
    rw [List.foldl_cons, ih, hg]

/-- The tree compiler returns the dataset it was given, at every fuel level:
compilation only reads the shapes dataset. -/
theorem compileNode_snd (report : Report) :
    ∀ (f : Nat) (ds : Dataset) (shape : Term),
      (compileNode report f ds shape).2 = ds := by
  intro f
  induction f with
  | zero => intro ds shape; rfl
  | succ f ih =>
    intro ds shape
    show (compileNode report (Nat.succ f) ds shape).2 = ds
    rw [compileNode]
    refine foldl_snd_eq _ ?_ _ _
    intro acc p
    exact foldl_snd_eq _ (fun acc2 ns => ih acc2.2 ns) _ _

/-- Claim C3: compiling the shape tree twice from identical
(report, shapes dataset, options, root IRI) inputs yields equal results —
hence the same node count, ordering, and messages — and compilation performs
no dataset mutation: the threaded dataset comes back unchanged. -/
theorem shaclTree_deterministic_pure (report : Report) (ds : Dataset)
    (options : Options) (rootIri : Term) :
    shaclTree report ds options rootIri = shaclTree report ds options rootIri ∧
    (shaclTree report ds options rootIri).2 = ds :=
  ⟨rfl, compileNode_snd report _ ds rootIri⟩

end ShaclForm
